import Mathlib

/-!
Shallow embedding of the wallet-analytics pipeline of `src/app.py`
(Streamlit dashboard): transaction classification (`get_wallet_stats`),
balance fetch (`get_wallet_balance`), the summary-metric block
(invested / gain / gain_pct / avg_buy / sharpe_ratio), the per-date
valuation loop (`value_data`), the max-drawdown computation, and the
30-day volatility computation.

Conventions:
  * Monetary amounts start as integer satoshis (`ℤ`) and enter `ℚ`
    through division by `1e8`, exactly where the Python divides.
  * Calendar dates: the code formats each block time with
    `strftime("%d-%m-%Y")` (UTC), i.e. truncates the Unix timestamp to
    the day; we model the resulting day as `Int.fdiv ts 86400`.
    `first_tx_date` keeps the full timestamp, as in the code.
  * Network fetches are modelled by their delivered data: the list of
    transactions with their (optional) detail records, a historical
    price function keyed by day, the funded/spent totals of the balance
    endpoint, and the 30-day price list.
  * Pandas float arithmetic on the statistics lines is modelled by
    `FVal` (finite rational / +inf / -inf / NaN) so that the
    divide-by-zero and NaN-propagation behaviour of
    `(v - cummax)/cummax).min()` and `pct_change().std()` is kept.
-/

namespace Infibit

/-- Direction tag of a ledger row (`"IN"` / `"OUT"` in the dataframe). -/
inductive Direction where
  | IN
  | OUT
deriving DecidableEq, Repr

/-- One element of `detail["vout"]`: an output with its satoshi `value`
and optional `scriptpubkey_address` (absent key ↦ `none`). -/
structure VoutEntry where
  value : ℤ
  scriptpubkey_address : Option String
deriving DecidableEq, Repr

/-- One element of `detail["vin"]`, flattened through
`vin.get("prevout", {})`: a missing prevout behaves as satoshi value `0`
and no address, so we store the prevout fields directly. -/
structure VinEntry where
  prevout_value : ℤ
  prevout_address : Option String
deriving DecidableEq, Repr

/-- The fields of a transaction-detail record (`get_tx_details` result)
consumed by `get_wallet_stats`: `status.block_time` (optional, the code
falls back to `int(time.time())`), `status.confirmed` (default false),
`vin` and `vout`. -/
structure TxDetail where
  block_time : Option ℤ
  confirmed : Bool
  vin : List VinEntry
  vout : List VoutEntry
deriving DecidableEq, Repr

/-- A fetched transaction: its id and its detail record; `none` models
a failed `get_tx_details` fetch (`{}` in Python, which is falsy and
makes the loop `continue`). -/
structure Tx where
  txid : String
  detail : Option TxDetail
deriving DecidableEq, Repr

/-- One row of the `data` list built by `get_wallet_stats`
(`[date_str, "IN"/"OUT", btc, btc_price, usd, txid, confirmed,
counterparty]`).  `dateDay` is the day encoded by `date_str`;
`counterparty` is `Option String` because the Python value can be an
address string, `""`, `"N/A"`, or `None`. -/
structure LedgerRow where
  dateDay : ℤ
  dir : Direction
  btc : ℚ
  priceAtTx : ℚ
  usd : ℚ
  txid : String
  confirmed : Bool
  counterparty : Option String
deriving DecidableEq, Repr

/-- The tuple returned by `get_wallet_stats`. -/
structure WalletStats where
  data : List LedgerRow
  total_btc_in : ℚ
  total_btc_out : ℚ
  total_usd_in : ℚ
  total_usd_out : ℚ
  first_tx_date : Option ℤ
deriving DecidableEq, Repr

/-- `btc_in = sum(v.get("value", 0) for v in detail.get("vout", [])
if v.get("scriptpubkey_address") == address) / 1e8`. -/
def btcIn (address : String) (d : TxDetail) : ℚ :=
  (((d.vout.filter fun v => v.scriptpubkey_address = some address).map
    fun v => (v.value : ℚ)).sum) / 100000000

/-- The `btc_out` accumulation loop: for each input whose prevout
belongs to the tracked address, add
`max(0, input_value - change_value)` where `change_value` is the same
sum as `btc_in`, recomputed (here shared through `btcIn`). -/
def btcOut (address : String) (d : TxDetail) : ℚ :=
  d.vin.foldl
    (fun acc vin =>
      if vin.prevout_address = some address then
        acc + max 0 ((vin.prevout_value : ℚ) / 100000000 - btcIn address d)
      else acc) 0

/-- The counterparty selection: input prevout owners other than the
tracked address (missing address rendered as `""`), else output owners
other than the tracked address (possibly `None`), else `"N/A"`. -/
def counterpartyOf (address : String) (d : TxDetail) : Option String :=
  let vinCps : List (Option String) :=
    (d.vin.filter fun vin => vin.prevout_address ≠ some address).map
      fun vin => some (vin.prevout_address.getD "")
  let voutCps : List (Option String) :=
    (d.vout.filter fun v => v.scriptpubkey_address ≠ some address).map
      fun v => v.scriptpubkey_address
  let candidates := if vinCps.isEmpty then voutCps else vinCps
  match candidates.head? with
  | some c => c
  | none => some "N/A"

/-- The rows a single fetched transaction appends to `data`: an IN row
iff `btc_in > 0` followed by an OUT row iff `btc_out > 0`; a
transaction with no detail record contributes nothing. -/
def txRows (address : String) (histPrice : ℤ → ℚ) (now : ℤ) (tx : Tx) :
    List LedgerRow :=
  match tx.detail with
  | none => []
  | some d =>
    let ts := d.block_time.getD now
    let day := Int.fdiv ts 86400
    let btc_price := histPrice day
    let btc_in := btcIn address d
    let btc_out := btcOut address d
    let cp := counterpartyOf address d
    (if 0 < btc_in then
      [⟨day, .IN, btc_in, btc_price, btc_in * btc_price, tx.txid, d.confirmed, cp⟩]
     else []) ++
    (if 0 < btc_out then
      [⟨day, .OUT, btc_out, btc_price, btc_out * btc_price, tx.txid, d.confirmed, cp⟩]
     else [])

/-- The body of the `for tx in txs` loop of `get_wallet_stats`:
update `first_tx_date`, append IN/OUT rows, accumulate totals. -/
def stepTx (address : String) (histPrice : ℤ → ℚ) (now : ℤ)
    (acc : WalletStats) (tx : Tx) : WalletStats :=
  match tx.detail with
  | none => acc
  | some d =>
    let ts := d.block_time.getD now
    let first :=
      match acc.first_tx_date with
      | none => some ts
      | some f => some (if ts < f then ts else f)
    let btc_in := btcIn address d
    let btc_out := btcOut address d
    { data := acc.data ++ txRows address histPrice now tx
      total_btc_in :=
        if 0 < btc_in then acc.total_btc_in + btc_in else acc.total_btc_in
      total_btc_out :=
        if 0 < btc_out then acc.total_btc_out + btc_out else acc.total_btc_out
      total_usd_in :=
        if 0 < btc_in then acc.total_usd_in + btc_in * histPrice (Int.fdiv ts 86400)
        else acc.total_usd_in
      total_usd_out :=
        if 0 < btc_out then acc.total_usd_out + btc_out * histPrice (Int.fdiv ts 86400)
        else acc.total_usd_out
      first_tx_date := first }

/-- `get_wallet_stats`: classify every fetched transaction into ledger
rows and running totals.  `histPrice` models `get_historical_price`
(keyed by calendar day), `now` models `int(time.time())`. -/
def getWalletStats (address : String) (histPrice : ℤ → ℚ) (now : ℤ)
    (txs : List Tx) : WalletStats :=
  txs.foldl (stepTx address histPrice now) ⟨[], 0, 0, 0, 0, none⟩

/-! ## Balance fetch and the summary-metric block -/

/-- `get_wallet_balance`: `(funded_txo_sum - spent_txo_sum)/1e8`,
returned through `max(balance, 0)`. -/
def getWalletBalance (funded spent : ℤ) : ℚ :=
  max (((funded : ℚ) - (spent : ℚ)) / 100000000) 0

/-- `invested = net_usd * multiplier if total_btc_in > 0 else
wallet_value`, where `net_usd = usd_in - usd_out`. -/
def investedCalc (total_btc_in usd_in usd_out mult wallet_value : ℚ) : ℚ :=
  if 0 < total_btc_in then (usd_in - usd_out) * mult else wallet_value

/-- `gain_pct = (gain / invested) * 100 if invested != 0 else 0`. -/
def gainPctCalc (gain invested : ℚ) : ℚ :=
  if invested ≠ 0 then gain / invested * 100 else 0

/-- `avg_buy = invested / net_btc if net_btc != 0 else 0`. -/
def avgBuyCalc (invested net_btc : ℚ) : ℚ :=
  if net_btc ≠ 0 then invested / net_btc else 0

/-- `sharpe_ratio = (gain_pct / volatility) * np.sqrt(252) if
volatility != 0 else 0`.  The irrational constant `np.sqrt(252)` is
passed in as `s252`; the guard structure is independent of its value. -/
def sharpeCalc (gain_pct volatility s252 : ℚ) : ℚ :=
  if volatility ≠ 0 then gain_pct / volatility * s252 else 0

/-- The summary metrics produced by the dashboard block, plus `warned`:
whether the `net_btc < 0` error branch fired. -/
structure Summary where
  net_btc : ℚ
  wallet_value : ℚ
  invested : ℚ
  gain : ℚ
  gain_pct : ℚ
  avg_buy : ℚ
  sharpe_ratio : ℚ
  warned : Bool
deriving DecidableEq, Repr

/-- The summary-metric block of the dashboard, in source order:
`net_btc` comes from `get_wallet_balance`; `wallet_value`, `invested`,
`gain`, `gain_pct`, `avg_buy` are computed; then the `if net_btc < 0`
branch zeroes `net_btc`, `wallet_value`, `gain`, `gain_pct` and shows
an error; `sharpe_ratio` is computed afterwards from the (possibly
zeroed) `gain_pct`.  `volatility` and `s252` enter as parameters. -/
def summarize (funded spent : ℤ) (current_price_usd mult : ℚ)
    (total_btc_in usd_in usd_out : ℚ) (volatility s252 : ℚ) : Summary :=
  let net_btc := getWalletBalance funded spent
  let wallet_value_usd := net_btc * current_price_usd
  let wallet_value := wallet_value_usd * mult
  let invested := investedCalc total_btc_in usd_in usd_out mult wallet_value
  let gain := wallet_value - invested
  let gain_pct := gainPctCalc gain invested
  let avg_buy := avgBuyCalc invested net_btc
  let warned := decide (net_btc < 0)
  let net_btc := if net_btc < 0 then 0 else net_btc
  let wallet_value := if warned then 0 else wallet_value
  let gain := if warned then 0 else gain
  let gain_pct := if warned then 0 else gain_pct
  let sharpe_ratio := sharpeCalc gain_pct volatility s252
  ⟨net_btc, wallet_value, invested, gain, gain_pct, avg_buy, sharpe_ratio, warned⟩

/-! ## The per-date valuation loop (`value_data`) -/

/-- One element of `value_data`: `{"Date": date, "Market Value": value,
"Cost Basis": cost_basis * multiplier}`. -/
structure ValuePoint where
  dateDay : ℤ
  marketValue : ℚ
  costBasis : ℚ
deriving DecidableEq, Repr

/-- The `value_data` loop: iterate over `sorted(df["Date"].unique())`;
per date, `net_btc_date` is recomputed from the **whole** dataframe
(`df[df["Type"] == "IN"]` with no date filter), `cost_basis` is
accumulated from the rows of the current date only, and the market
value is `net_btc_date * price * multiplier`. -/
def valueData (rows : List LedgerRow) (histPrice : ℤ → ℚ) (mult : ℚ) :
    List ValuePoint :=
  let dates := ((rows.map fun r => r.dateDay).dedup).insertionSort (· ≤ ·)
  (dates.foldl
    (fun (acc : List ValuePoint × ℚ) d =>
      let dateRows := rows.filter fun r => r.dateDay = d
      let net_btc_date :=
        (((rows.filter fun r => r.dir = .IN).map fun r => r.btc).sum) -
        (((rows.filter fun r => r.dir = .OUT).map fun r => r.btc).sum)
      let cost_basis := acc.2 +
        ((((dateRows.filter fun r => r.dir = .IN).map fun r => r.usd).sum) -
         (((dateRows.filter fun r => r.dir = .OUT).map fun r => r.usd).sum))
      let value := net_btc_date * histPrice d * mult
      (acc.1 ++ [⟨d, value, cost_basis * mult⟩], cost_basis))
    ([], 0)).1

/-! ## Pandas float model for the statistics lines

`max_drawdown` and `volatility` divide by quantities that can be zero;
pandas floats then produce `±inf` or `NaN`, and `Series.min` / `.std`
skip `NaN`.  `FVal` models exactly this. -/

/-- A pandas float: a finite rational, `+inf`, `-inf`, or `NaN`. -/
inductive FVal where
  | fin : ℚ → FVal
  | pinf
  | ninf
  | nan
deriving DecidableEq, Repr

/-- IEEE float division of two finite rationals: `q/0` is `±inf` by the
sign of `q`, and `0/0` is `NaN`. -/
def fdivQ (num den : ℚ) : FVal :=
  if den = 0 then
    if num = 0 then .nan else if 0 < num then .pinf else .ninf
  else .fin (num / den)

/-- IEEE `≤` on pandas floats: any comparison with `NaN` is false. -/
def fle : FVal → FVal → Bool
  | .nan, _ => false
  | _, .nan => false
  | .ninf, _ => true
  | _, .pinf => true
  | .fin a, .fin b => a ≤ b
  | .pinf, _ => false
  | .fin _, .ninf => false

/-- NaN test. -/
def FVal.isNan : FVal → Bool
  | .nan => true
  | _ => false

/-- NaN-skipping binary minimum (the reduction step of `Series.min`
with the default `skipna=True`). -/
def fminPair (x y : FVal) : FVal :=
  if x.isNan then y else if y.isNan then x else if fle x y then x else y

/-- `Series.min()` with `skipna=True`: minimum of the non-NaN entries,
`NaN` when there are none. -/
def minSkipNa (l : List FVal) : FVal :=
  l.foldr fminPair .nan

/-- Multiplication of a pandas float by the positive constant `100`. -/
def fscale100 : FVal → FVal
  | .fin q => .fin (q * 100)
  | .pinf => .pinf
  | .ninf => .ninf
  | .nan => .nan

/-- `Series.cummax()` on a finite series. -/
def runningMax : List ℚ → List ℚ
  | [] => []
  | v :: r => v :: (runningMax r).map (max v)

/-- `((value_df["Market Value"] - cummax) / cummax).min() * 100 if not
value_df.empty else 0`, over the market-value series. -/
def maxDrawdown (values : List ℚ) : FVal :=
  if values.isEmpty then .fin 0
  else
    fscale100 (minSkipNa
      (List.zipWith (fun v m => fdivQ (v - m) m) values (runningMax values)))

/-! ## 30-day volatility -/

/-- `Series.pct_change()`: first entry `NaN`, then
`(p_i - p_{i-1}) / p_{i-1}` with IEEE divide-by-zero behaviour. -/
def pctChange (prices : List ℚ) : List FVal :=
  match prices with
  | [] => []
  | p :: rest => .nan :: pctChangeGo p rest
where
  pctChangeGo (prev : ℚ) : List ℚ → List FVal
    | [] => []
    | c :: r => fdivQ (c - prev) prev :: pctChangeGo c r

/-- Infinity test. -/
def FVal.isInf : FVal → Bool
  | .pinf => true
  | .ninf => true
  | _ => false

/-- The finite payload of a pandas float (`0` for the non-finite
constructors; only applied to lists already known finite). -/
def FVal.toQ : FVal → ℚ
  | .fin q => q
  | _ => 0

/-- Sample variance (`ddof=1`) of a list of rationals. -/
def sampleVar (qs : List ℚ) : ℚ :=
  let n : ℚ := qs.length
  let mean := qs.sum / n
  ((qs.map fun x => (x - mean) ^ 2).sum) / (n - 1)

/-- `Series.std()` (`ddof=1`, `skipna=True`), represented by the
variance it takes the square root of: `NaN` when fewer than two non-NaN
entries remain or when an infinity is among them, else
`fin (sample variance)`.  Since `√` is zero/positive/NaN exactly when
its argument is, this representation preserves the zero and NaN cases
the claims speak about. -/
def stdAsVar (l : List FVal) : FVal :=
  let valid := l.filter fun x => ¬x.isNan
  if valid.length < 2 ∨ valid.any (fun x => x.isInf) then .nan
  else .fin (sampleVar (valid.map FVal.toQ))

/-- `volatility = historical_prices["price"].pct_change().std() *
np.sqrt(252) * 100 if not historical_prices.empty else 0`, with the
finite branch carrying the squared volatility
(`variance * 252 * 100²`), per the `stdAsVar` representation. -/
def volatility30 (prices : List ℚ) : FVal :=
  if prices.isEmpty then .fin 0
  else
    match stdAsVar (pctChange prices) with
    | .fin v => .fin (v * 252 * 10000)
    | _ => .nan

/-! ## Helper lemmas -/

/-- A guarded accumulating fold is the sum over the filtered list. -/
lemma foldl_if_add (address : String) (c : ℚ) :
    ∀ (l : List VinEntry) (init : ℚ),
      l.foldl
        (fun acc vin =>
          if vin.prevout_address = some address then
            acc + max 0 ((vin.prevout_value : ℚ) / 100000000 - c)
          else acc) init
      = init + (((l.filter fun vin => vin.prevout_address = some address).map
          fun vin => max 0 ((vin.prevout_value : ℚ) / 100000000 - c)).sum)
  | [], init => by simp
  | vin :: l, init => by
    by_cases h : vin.prevout_address = some address
    · simp only [List.foldl_cons, if_pos h, List.filter_cons,
        decide_eq_true_eq, h, if_true, List.map_cons, List.sum_cons,
        foldl_if_add address c l]
      ring
    · simp only [List.foldl_cons, if_neg h, List.filter_cons,
        decide_eq_true_eq, h, if_false, foldl_if_add address c l]

/-- Each loop iteration appends exactly the rows of `txRows`. -/
lemma stepTx_data (address : String) (hp : ℤ → ℚ) (now : ℤ)
    (acc : WalletStats) (tx : Tx) :
    (stepTx address hp now acc tx).data =
      acc.data ++ txRows address hp now tx := by
  cases h : tx.detail with
  | none => simp [stepTx, txRows, h]
  | some d => simp [stepTx, h]

/-- The `data` list of `get_wallet_stats` is the concatenation, in
delivery order, of the rows of each fetched transaction. -/
lemma foldl_stepTx_data (address : String) (hp : ℤ → ℚ) (now : ℤ) :
    ∀ (txs : List Tx) (acc : WalletStats),
      (txs.foldl (stepTx address hp now) acc).data =
        acc.data ++ ((txs.map (txRows address hp now)).flatten)
  | [], acc => by simp
  | tx :: txs, acc => by
    simp only [List.foldl_cons, List.map_cons, List.flatten_cons,
      foldl_stepTx_data address hp now txs, stepTx_data, List.append_assoc]

/-- Every row emitted by a single transaction has positive `btc`. -/
lemma txRows_btc_pos (address : String) (hp : ℤ → ℚ) (now : ℤ) (tx : Tx) :
    ∀ r ∈ txRows address hp now tx, 0 < r.btc := by
  intro r hr
  cases h : tx.detail with
  | none => simp [txRows, h] at hr
  | some d =>
    simp only [txRows, h, List.mem_append] at hr
    rcases hr with hr | hr <;> split_ifs at hr with hpos <;>
      simp only [List.mem_singleton, List.not_mem_nil] at hr
    · subst hr; exact hpos
    · subst hr; exact hpos

/-- The IN rows of one transaction: one when `btc_in > 0`, none
otherwise. -/
lemma txRows_count_in (address : String) (hp : ℤ → ℚ) (now : ℤ)
    (tid : String) (d : TxDetail) :
    ((txRows address hp now ⟨tid, some d⟩).filter
      fun r => r.dir = Direction.IN).length =
      if 0 < btcIn address d then 1 else 0 := by
  simp only [txRows]
  split_ifs <;> simp_all [List.filter_cons]

/-- The OUT rows of one transaction: one when `btc_out > 0`, none
otherwise. -/
lemma txRows_count_out (address : String) (hp : ℤ → ℚ) (now : ℤ)
    (tid : String) (d : TxDetail) :
    ((txRows address hp now ⟨tid, some d⟩).filter
      fun r => r.dir = Direction.OUT).length =
      if 0 < btcOut address d then 1 else 0 := by
  simp only [txRows]
  split_ifs <;> simp_all [List.filter_cons]

/-- Evaluation lemma: `decide` on `Direction` equality (same tags). -/
lemma dir_eq_in_in : (decide (Direction.IN = Direction.IN)) = true := rfl

/-- Evaluation lemma: `decide` on `Direction` equality (IN vs OUT). -/
lemma dir_eq_in_out : (decide (Direction.IN = Direction.OUT)) = false := rfl

/-- Evaluation lemma: `decide` on `Direction` equality (OUT vs IN). -/
lemma dir_eq_out_in : (decide (Direction.OUT = Direction.IN)) = false := rfl

/-- Evaluation lemma: `decide` on `Direction` equality (same tags). -/
lemma dir_eq_out_out : (decide (Direction.OUT = Direction.OUT)) = true := rfl

/-- Evaluation lemma: a missing address never equals a tracked one. -/
lemma decide_none_eq_some (s : String) :
    decide ((none : Option String) = some s) = false := rfl

/-- Evaluation lemma: `decide` on `Option String` equality through the
payloads. -/
lemma decide_some_eq_some (a b : String) :
    decide ((some a : Option String) = some b) = decide (a = b) := by
  by_cases h : a = b <;> simp [h]

/-- The returned `data` list, from the empty initial accumulator. -/
lemma getWalletStats_data (address : String) (hp : ℤ → ℚ) (now : ℤ)
    (txs : List Tx) :
    (getWalletStats address hp now txs).data =
      (txs.map (txRows address hp now)).flatten := by
  simpa [getWalletStats] using
    foldl_stepTx_data address hp now txs ⟨[], 0, 0, 0, 0, none⟩

/-- A two-entry ledger whose IN amounts differ across dates: 1 BTC on
day 0, 2 BTC on day 1. -/
def exampleLedger : List LedgerRow :=
  [⟨0, .IN, 1, 10, 10, "t1", true, none⟩,
   ⟨1, .IN, 2, 10, 20, "t2", true, none⟩]

/-- Modelled from the spec (§4.5, `value_series`): net holdings as of a
date are cumulative IN minus cumulative OUT over the entries with date
at most the given date. -/
def specNetHoldings (rows : List LedgerRow) (d : ℤ) : ℚ :=
  ((((rows.filter fun r => r.dateDay ≤ d).filter
      fun r => r.dir = Direction.IN).map fun r => r.btc).sum) -
  ((((rows.filter fun r => r.dateDay ≤ d).filter
      fun r => r.dir = Direction.OUT).map fun r => r.btc).sum)

/-! ## Lemmas about the pandas float model -/

/-- `minSkipNa` unfolds one step. -/
lemma minSkipNa_cons (x : FVal) (l : List FVal) :
    minSkipNa (x :: l) = fminPair x (minSkipNa l) := rfl

/-- `fminPair` with a NaN left argument keeps the right one. -/
lemma fminPair_nan_left (y : FVal) : fminPair FVal.nan y = y := rfl

/-- A true `fle` has a non-NaN left argument. -/
lemma fle_left_not_nan {x y : FVal} (h : fle x y = true) :
    x.isNan = false := by
  cases x <;> cases y <;> simp_all [fle, FVal.isNan]

/-- `fle` is transitive. -/
lemma fle_trans {x y z : FVal} (h1 : fle x y = true) (h2 : fle y z = true) :
    fle x z = true := by
  cases x <;> cases y <;> cases z <;> simp_all [fle]
  exact le_trans h1 h2

/-- `fle` is total on non-NaN values. -/
lemma fle_total (x y : FVal) (hx : x.isNan = false) (hy : y.isNan = false) :
    fle x y = true ∨ fle y x = true := by
  cases x <;> cases y <;> simp_all [fle, FVal.isNan]
  exact le_total _ _

/-- `fminPair` with a non-NaN left argument returns the left argument
(when the right is NaN or not smaller) or the right one, then known to
be `fle` the left. -/
lemma fminPair_spec (x y : FVal) (hx : x.isNan = false) :
    (fminPair x y = x ∧ (y.isNan = true ∨ fle x y = true)) ∨
    (fminPair x y = y ∧ fle y x = true) := by
  unfold fminPair
  rw [hx]
  by_cases hy : y.isNan
  · simp [hy]
  · have hy' : y.isNan = false := by simpa using hy
    by_cases hxy : fle x y = true
    · simp [hy', hxy]
    · rcases fle_total x y hx hy' with h | h
      · exact absurd h hxy
      · simp [hy', hxy, h]

/-- If some non-NaN member of the list is `fle (fin 0)`, so is the
NaN-skipping minimum. -/
lemma minSkipNa_le_zero :
    ∀ (l : List FVal) (t : FVal), t ∈ l → t.isNan = false →
      fle t (FVal.fin 0) = true → fle (minSkipNa l) (FVal.fin 0) = true
  | [], t, ht, _, _ => absurd ht (List.not_mem_nil t)
  | x :: r, t, ht, htn, htle => by
    rw [minSkipNa_cons]
    rcases List.mem_cons.mp ht with rfl | hmem
    · rcases fminPair_spec t (minSkipNa r) htn with ⟨heq, _⟩ | ⟨heq, hyx⟩
      · rw [heq]; exact htle
      · rw [heq]; exact fle_trans hyx htle
    · have hm := minSkipNa_le_zero r t hmem htn htle
      by_cases hx : x.isNan = true
      · have hxn : x = FVal.nan := by cases x <;> simp_all [FVal.isNan]
        rw [hxn, fminPair_nan_left]; exact hm
      · have hx' : x.isNan = false := by simpa using hx
        rcases fminPair_spec x (minSkipNa r) hx' with ⟨heq, hor⟩ | ⟨heq, _⟩
        · rw [heq]
          rcases hor with hnan | hxy
          · have := fle_left_not_nan hm
            simp_all
          · exact fle_trans hxy hm
        · rw [heq]; exact hm

/-- Scaling by 100 preserves being `fle (fin 0)`. -/
lemma fle_fscale100 {x : FVal} (h : fle x (FVal.fin 0) = true) :
    fle (fscale100 x) (FVal.fin 0) = true := by
  cases x <;> simp_all [fle, fscale100]
  linarith

/-- The diagonal drawdown term: NaN at a zero value, `fin 0` else. -/
lemma fdivQ_self (v : ℚ) :
    fdivQ (v - v) v = if v = 0 then FVal.nan else FVal.fin 0 := by
  by_cases hv : v = 0 <;> simp [fdivQ, hv]

/-- A drawdown term over a nonnegative running maximum is non-NaN and
`fle (fin 0)`, provided value and maximum are not both zero. -/
lemma head_term_good (x M : ℚ) (hM0 : 0 ≤ M) (hxM : x ≤ M)
    (hne : ¬(x = 0 ∧ M = 0)) :
    (fdivQ (x - M) M).isNan = false ∧
    fle (fdivQ (x - M) M) (FVal.fin 0) = true := by
  by_cases hMz : M = 0
  · subst hMz
    have hx0 : x ≠ 0 := fun hx => hne ⟨hx, rfl⟩
    have hxlt : x < 0 := lt_of_le_of_ne hxM hx0
    have : fdivQ (x - 0) 0 = FVal.ninf := by
      simp [fdivQ, hx0, not_lt_of_lt hxlt]
    rw [this]
    simp [FVal.isNan, fle]
  · have : fdivQ (x - M) M = FVal.fin ((x - M) / M) := by simp [fdivQ, hMz]
    rw [this]
    refine ⟨rfl, ?_⟩
    simp only [fle, decide_eq_true_eq]
    exact div_nonpos_of_nonpos_of_nonneg (by linarith) hM0

/-- Rebracketing nested running maxima. -/
lemma map_max_max (m x : ℚ) (L : List ℚ) :
    (L.map (max x)).map (max m) = L.map (max (max m x)) := by
  rw [List.map_map]
  congr 1
  funext y
  simp only [Function.comp_apply]
  exact (max_assoc m x y).symm

/-- If the list has a nonzero value, the drawdown terms over a
nonnegative ambient maximum contain a non-NaN term that is
`fle (fin 0)`. -/
lemma zip_term_witness (l : List ℚ) :
    ∀ m : ℚ, 0 ≤ m → (∃ v ∈ l, v ≠ 0) →
      ∃ t ∈ List.zipWith (fun v mm => fdivQ (v - mm) mm) l
          ((runningMax l).map (max m)),
        t.isNan = false ∧ fle t (FVal.fin 0) = true := by
  induction l with
  | nil =>
    intro m _ hyp
    obtain ⟨v, hv, _⟩ := hyp
    exact absurd hv (List.not_mem_nil v)
  | cons x r IH =>
    intro m hm hyp
    have hrw : (runningMax (x :: r)).map (max m)
        = max m x :: (runningMax r).map (max (max m x)) := by
      simp only [runningMax, List.map_cons, map_max_max]
    rw [hrw, List.zipWith_cons_cons]
    by_cases hz : x = 0 ∧ max m x = 0
    · obtain ⟨hx0, hmx0⟩ := hz
      have hr : ∃ v ∈ r, v ≠ 0 := by
        obtain ⟨w, hw, hw0⟩ := hyp
        rcases List.mem_cons.mp hw with rfl | hwr
        · exact absurd hx0 hw0
        · exact ⟨w, hwr, hw0⟩
      obtain ⟨t, ht, htn, htle⟩ :=
        IH (max m x) (le_trans hm (le_max_left m x)) hr
      exact ⟨t, List.mem_cons_of_mem _ ht, htn, htle⟩
    · have hgood := head_term_good x (max m x)
        (le_trans hm (le_max_left m x)) (le_max_right m x) hz
      exact ⟨_, List.mem_cons_self _ _, hgood.1, hgood.2⟩

/-- In a non-decreasing chain the head bounds every later element. -/
lemma chain_le_head (v : ℚ) (r : List ℚ)
    (hc : List.Chain' (· ≤ ·) (v :: r)) : ∀ x ∈ r, v ≤ x := by
  induction r generalizing v with
  | nil => intro x hx; exact absurd hx (List.not_mem_nil x)
  | cons y r' IH =>
    intro x hx
    rw [List.chain'_cons] at hc
    rcases List.mem_cons.mp hx with rfl | hxr
    · exact hc.1
    · exact le_trans hc.1 (IH y hc.2 x hxr)

/-- On a non-decreasing series the running maximum is the series. -/
lemma runningMax_chain (l : List ℚ) (hc : List.Chain' (· ≤ ·) l) :
    runningMax l = l := by
  induction l with
  | nil => rfl
  | cons v r IH =>
    have hcr : List.Chain' (· ≤ ·) r := (List.chain'_cons'.mp hc).2
    simp only [runningMax, IH hcr]
    congr 1
    have hmax : ∀ x ∈ r, max v x = x :=
      fun x hx => max_eq_right (chain_le_head v r hc x hx)
    calc r.map (max v) = r.map id := List.map_congr_left hmax
      _ = r := List.map_id r

/-- Zipping a list with itself is mapping the diagonal. -/
lemma zipWith_self {α β : Type _} (f : α → α → β) :
    ∀ l : List α, List.zipWith f l l = l.map fun v => f v v
  | [] => rfl
  | x :: r => by
    rw [List.zipWith_cons_cons, List.map_cons, zipWith_self f r]

/-- The NaN-skipping minimum of the diagonal drawdown terms is NaN or
`fin 0`. -/
lemma minSkipNa_selfterms_aux (l : List ℚ) :
    minSkipNa (l.map fun v => fdivQ (v - v) v) = FVal.nan ∨
    minSkipNa (l.map fun v => fdivQ (v - v) v) = FVal.fin 0 := by
  induction l with
  | nil => left; rfl
  | cons v r IH =>
    rw [List.map_cons, minSkipNa_cons]
    by_cases hv : v = 0
    · rw [show fdivQ (v - v) v = FVal.nan from by simp [fdivQ, hv]]
      rw [fminPair_nan_left]
      exact IH
    · rw [show fdivQ (v - v) v = FVal.fin 0 from by simp [fdivQ, hv]]
      rcases IH with h | h <;> rw [h] <;> right
      · rfl
      · simp [fminPair, fle, FVal.isNan]

/-- With a nonzero value present, the NaN-skipping minimum of the
diagonal drawdown terms is `fin 0`. -/
lemma minSkipNa_selfterms (l : List ℚ) (h : ∃ v ∈ l, v ≠ 0) :
    minSkipNa (l.map fun v => fdivQ (v - v) v) = FVal.fin 0 := by
  induction l with
  | nil =>
    obtain ⟨v, hv, _⟩ := h
    exact absurd hv (List.not_mem_nil v)
  | cons v r IH =>
    rw [List.map_cons, minSkipNa_cons]
    by_cases hv : v = 0
    · rw [show fdivQ (v - v) v = FVal.nan from by simp [fdivQ, hv]]
      rw [fminPair_nan_left]
      apply IH
      obtain ⟨w, hw, hw0⟩ := h
      rcases List.mem_cons.mp hw with rfl | hwr
      · exact absurd hv hw0
      · exact ⟨w, hwr, hw0⟩
    · rw [show fdivQ (v - v) v = FVal.fin 0 from by simp [fdivQ, hv]]
      rcases minSkipNa_selfterms_aux r with h' | h' <;> rw [h']
      · rfl
      · simp [fminPair, fle, FVal.isNan]

/-- With a nonzero value present, the max drawdown is `fle (fin 0)`. -/
lemma maxDrawdown_le_zero_of_exists (values : List ℚ)
    (h : ∃ v ∈ values, v ≠ 0) :
    fle (maxDrawdown values) (FVal.fin 0) = true := by
  obtain ⟨w, hw, hw0⟩ := h
  cases values with
  | nil => exact absurd hw (List.not_mem_nil w)
  | cons v rest =>
    have hne : (v :: rest).isEmpty = false := rfl
    rw [maxDrawdown, hne]
    simp only [Bool.false_eq_true, if_false]
    apply fle_fscale100
    have hrw : runningMax (v :: rest) = v :: (runningMax rest).map (max v) :=
      rfl
    rw [hrw, List.zipWith_cons_cons]
    by_cases hv : v = 0
    · subst hv
      have hwr : w ∈ rest := by
        rcases List.mem_cons.mp hw with rfl | hwr
        · exact absurd rfl hw0
        · exact hwr
      obtain ⟨t, ht, htn, htle⟩ :=
        zip_term_witness rest 0 le_rfl ⟨w, hwr, hw0⟩
      exact minSkipNa_le_zero _ t (List.mem_cons_of_mem _ ht) htn htle
    · apply minSkipNa_le_zero _ (fdivQ (v - v) v) (List.mem_cons_self _ _)
      · rw [fdivQ_self, if_neg hv]
        rfl
      · rw [fdivQ_self, if_neg hv]
        simp [fle]

/-- On a non-decreasing series with a nonzero value, the max drawdown
is exactly `fin 0`. -/
lemma maxDrawdown_chain (values : List ℚ) (h : ∃ v ∈ values, v ≠ 0)
    (hc : List.Chain' (· ≤ ·) values) : maxDrawdown values = FVal.fin 0 := by
  cases values with
  | nil =>
    obtain ⟨w, hw, _⟩ := h
    exact absurd hw (List.not_mem_nil w)
  | cons v rest =>
    have hne : (v :: rest).isEmpty = false := rfl
    rw [maxDrawdown, hne]
    simp only [Bool.false_eq_true, if_false]
    rw [runningMax_chain _ hc, zipWith_self, minSkipNa_selfterms _ h]
    show FVal.fin (0 * 100) = FVal.fin 0
    norm_num

/-! ## Claim theorems -/

/-- Claim C1 (code-bug evaluation): on the two-entry ledger with
historical price 1 and multiplier 1 the market value reported for day 0
is 3 — the whole-ledger net total — whereas the entries with date ≤ day
0 sum to 1 BTC: the `value_data` loop recomputes `net_btc_date` from
the entire dataframe instead of the date-filtered prefix. -/
theorem value_data_eval :
    (valueData exampleLedger (fun _ => 1) 1).map (fun p => p.marketValue)
      = [3, 3] ∧
    specNetHoldings exampleLedger 0 = 1 ∧
    specNetHoldings exampleLedger 1 = 3 ∧
    (3 : ℚ) ≠ 1 := by
  refine ⟨?_, ?_, ?_, by norm_num⟩
  · norm_num [valueData, exampleLedger, List.dedup, List.pwFilter,
      List.insertionSort, List.orderedInsert, List.filter,
      dir_eq_in_in, dir_eq_in_out, dir_eq_out_in, dir_eq_out_out]
  · norm_num [specNetHoldings, exampleLedger, List.filter,
      dir_eq_in_in, dir_eq_in_out, dir_eq_out_in, dir_eq_out_out]
  · norm_num [specNetHoldings, exampleLedger, List.filter,
      dir_eq_in_in, dir_eq_in_out, dir_eq_out_in, dir_eq_out_out]

/-- Claim C2 (counterexample): with `total_btc_in = 1`, `usd_in = 0`,
`usd_out = 100`, multiplier 1 and market value 50, the net USD figure
is non-positive yet `invested` is −100 — negative, and not clamped to
the market value — because the code's guard is `total_btc_in > 0`, not
the sign of the net USD figure. -/
theorem invested_claim_cex :
    investedCalc 1 0 100 1 50 = -100 ∧
    investedCalc 1 0 100 1 50 < 0 ∧
    ((0 : ℚ) - 100 ≤ 0) ∧
    investedCalc 1 0 100 1 50 ≠ 50 := by
  norm_num [investedCalc]

/-- Claim C2 (amended): `invested` equals
`(total_usd_in − total_usd_out) × multiplier` whenever
`total_btc_in > 0`, and equals the current market value exactly when
`total_btc_in ≤ 0`; with positive `total_btc_in` it can be negative. -/
theorem invested_guard (total_btc_in usd_in usd_out mult wallet_value : ℚ) :
    (0 < total_btc_in →
      investedCalc total_btc_in usd_in usd_out mult wallet_value
        = (usd_in - usd_out) * mult) ∧
    (¬ 0 < total_btc_in →
      investedCalc total_btc_in usd_in usd_out mult wallet_value
        = wallet_value) := by
  constructor <;> intro h <;> simp [investedCalc, h]

/-- Witness for `invested_guard` at a concrete input. -/
theorem invested_guard_witness :
    (0 : ℚ) < 1 ∧ investedCalc 1 5 2 1 99 = (5 - 2) * 1 :=
  ⟨by norm_num, (invested_guard 1 5 2 1 99).1 (by norm_num)⟩

/-- Claim C3 (counterexample): two transactions delivered
newest-first (block times 86400 then 0) produce ledger rows with day
sequence `[1, 0]`, which is not sorted ascending — `get_wallet_stats`
never sorts `data`. -/
theorem ledger_sorted_cex :
    ((getWalletStats "addr" (fun _ => 10) 0
      [⟨"a1", some ⟨some 86400, true, [], [⟨100000000, some "addr"⟩]⟩⟩,
       ⟨"b1", some ⟨some 0, true, [], [⟨200000000, some "addr"⟩]⟩⟩]).data.map
        fun r => r.dateDay) = [1, 0] ∧
    ¬ List.Sorted (· ≤ ·)
      ((getWalletStats "addr" (fun _ => 10) 0
        [⟨"a1", some ⟨some 86400, true, [], [⟨100000000, some "addr"⟩]⟩⟩,
         ⟨"b1", some ⟨some 0, true, [], [⟨200000000, some "addr"⟩]⟩⟩]).data.map
          fun r => r.dateDay) := by
  have h1 : ((getWalletStats "addr" (fun _ => 10) 0
      [⟨"a1", some ⟨some 86400, true, [], [⟨100000000, some "addr"⟩]⟩⟩,
       ⟨"b1", some ⟨some 0, true, [], [⟨200000000, some "addr"⟩]⟩⟩]).data.map
        fun r => r.dateDay) = [1, 0] := by
    norm_num [getWalletStats, stepTx, txRows, btcIn, btcOut, counterpartyOf,
      Int.fdiv, List.filter, decide_none_eq_some, decide_some_eq_some]
  refine ⟨h1, ?_⟩
  rw [h1]
  intro hs
  exact absurd (List.rel_of_sorted_cons hs 0 (by simp)) (by norm_num)

/-- Claim C3 (amended): the ledger rows are returned in the order the
transaction service delivered the transactions (with each
transaction's IN row preceding its OUT row); no date sort is applied. -/
theorem ledger_delivery_order (address : String) (hp : ℤ → ℚ) (now : ℤ)
    (txs : List Tx) :
    (getWalletStats address hp now txs).data =
      (txs.map (txRows address hp now)).flatten :=
  getWalletStats_data address hp now txs

/-- Claim C4: the classifier's inflow is the satoshi sum of the outputs
owned by the tracked address divided by 10^8, and its outflow is the
sum, over inputs whose prevout belongs to the tracked address, of
`max(0, input BTC − inflow)` — clamped per input before summing. -/
theorem classifier_amounts (address : String) (d : TxDetail) :
    btcIn address d =
      (((d.vout.filter fun v => v.scriptpubkey_address = some address).map
        fun v => (v.value : ℚ)).sum) / 100000000 ∧
    btcOut address d =
      (((d.vin.filter fun vin => vin.prevout_address = some address).map
        fun vin =>
          max 0 ((vin.prevout_value : ℚ) / 100000000 - btcIn address d)).sum) := by
  refine ⟨rfl, ?_⟩
  unfold btcOut
  simpa using foldl_if_add address (btcIn address d) d.vin 0

/-- Claim C5: every ledger row has `btc > 0`; the data list is the
per-transaction concatenation, and a single transaction contributes
exactly one IN row when its inflow is positive (none otherwise) and
exactly one OUT row when its outflow is positive (none otherwise) — in
particular at most one of each. -/
theorem ledger_entry_invariants (address : String) (hp : ℤ → ℚ) (now : ℤ)
    (txs : List Tx) :
    (∀ r ∈ (getWalletStats address hp now txs).data, 0 < r.btc) ∧
    ((getWalletStats address hp now txs).data =
      (txs.map (txRows address hp now)).flatten) ∧
    (∀ tx : Tx,
      ((txRows address hp now tx).filter
        fun r => r.dir = Direction.IN).length ≤ 1 ∧
      ((txRows address hp now tx).filter
        fun r => r.dir = Direction.OUT).length ≤ 1) ∧
    (∀ (tid : String) (d : TxDetail),
      (((txRows address hp now ⟨tid, some d⟩).filter
          fun r => r.dir = Direction.IN).length
        = if 0 < btcIn address d then 1 else 0) ∧
      (((txRows address hp now ⟨tid, some d⟩).filter
          fun r => r.dir = Direction.OUT).length
        = if 0 < btcOut address d then 1 else 0)) := by
  refine ⟨?_, getWalletStats_data address hp now txs, ?_, ?_⟩
  · intro r hr
    rw [getWalletStats_data] at hr
    rw [List.mem_flatten] at hr
    obtain ⟨s, hs, hrs⟩ := hr
    rw [List.mem_map] at hs
    obtain ⟨tx, _, rfl⟩ := hs
    exact txRows_btc_pos address hp now tx r hrs
  · intro tx
    cases htx : tx.detail with
    | none => constructor <;> simp [txRows, htx]
    | some d =>
      have hre : tx = ⟨tx.txid, some d⟩ := by cases tx; simp_all
      rw [hre, txRows_count_in, txRows_count_out]
      constructor <;> split_ifs <;> norm_num
  · intro tid d
    exact ⟨txRows_count_in address hp now tid d,
           txRows_count_out address hp now tid d⟩

/-- Witness for `ledger_entry_invariants`: a concrete emitted row has
positive `btc`. -/
theorem ledger_entry_invariants_witness :
    (⟨1, Direction.IN, 1, 10, 10, "a1", true, some "N/A"⟩ : LedgerRow) ∈
      (getWalletStats "addr" (fun _ => 10) 0
        [⟨"a1", some ⟨some 86400, true, [], [⟨100000000, some "addr"⟩]⟩⟩]).data ∧
    (0 : ℚ) < 1 := by
  have hm : (⟨1, Direction.IN, 1, 10, 10, "a1", true, some "N/A"⟩ : LedgerRow) ∈
      (getWalletStats "addr" (fun _ => 10) 0
        [⟨"a1", some ⟨some 86400, true, [], [⟨100000000, some "addr"⟩]⟩⟩]).data := by
    norm_num [getWalletStats, stepTx, txRows, btcIn, btcOut, counterpartyOf,
      Int.fdiv, List.filter, decide_none_eq_some, decide_some_eq_some]
  exact ⟨hm,
    (ledger_entry_invariants "addr" (fun _ => 10) 0
        [⟨"a1", some ⟨some 86400, true, [], [⟨100000000, some "addr"⟩]⟩⟩]).1
      ⟨1, Direction.IN, 1, 10, 10, "a1", true, some "N/A"⟩ hm⟩

/-- Claim C6 (counterexample): funded 0, spent 10^8 satoshis (negative
chain balance), price 50, multiplier 1, ledger totals
`total_btc_in = 1`, `usd_in = 100`, `usd_out = 0`: the balance is
clamped to 0 at fetch, but `gain = −100` and `gain_pct = −100` — not
zeroed — and no warning fires. -/
theorem negative_balance_cex :
    (summarize 0 100000000 50 1 1 100 0 5 7).warned = false ∧
    (summarize 0 100000000 50 1 1 100 0 5 7).net_btc = 0 ∧
    (summarize 0 100000000 50 1 1 100 0 5 7).gain = -100 ∧
    (summarize 0 100000000 50 1 1 100 0 5 7).gain_pct = -100 := by
  norm_num [summarize, getWalletBalance, investedCalc, gainPctCalc,
    avgBuyCalc, sharpeCalc]

/-- Claim C6 (amended): when spent exceeds funded,
`get_wallet_balance` itself clamps the balance to 0 (`max(balance,0)`),
so the reported balance and market value are 0; but the `net_btc < 0`
warning branch never fires, and the gain figures are not zeroed:
`gain = −invested`, and `gain_pct = −100` whenever `invested ≠ 0`. -/
theorem negative_balance_clamped (funded spent : ℤ)
    (cp mult tbi ui uo vol s252 : ℚ) (h : funded < spent) :
    (summarize funded spent cp mult tbi ui uo vol s252).net_btc = 0 ∧
    (summarize funded spent cp mult tbi ui uo vol s252).wallet_value = 0 ∧
    (summarize funded spent cp mult tbi ui uo vol s252).warned = false ∧
    (summarize funded spent cp mult tbi ui uo vol s252).gain =
      -(summarize funded spent cp mult tbi ui uo vol s252).invested ∧
    ((summarize funded spent cp mult tbi ui uo vol s252).invested ≠ 0 →
      (summarize funded spent cp mult tbi ui uo vol s252).gain_pct = -100) := by
  have hq : ((funded : ℚ) - (spent : ℚ)) / 100000000 ≤ 0 := by
    apply div_nonpos_of_nonpos_of_nonneg
    · have hc : (funded : ℚ) < (spent : ℚ) := by exact_mod_cast h
      linarith
    · norm_num
  have hb : getWalletBalance funded spent = 0 := max_eq_right hq
  refine ⟨?_, ?_, ?_, ?_, ?_⟩ <;>
    norm_num [summarize, hb]
  · intro hinv
    rw [gainPctCalc]
    rw [if_pos hinv]
    rw [neg_div, div_self hinv]
    norm_num

/-- Witness for `negative_balance_clamped` at a concrete input. -/
theorem negative_balance_clamped_witness :
    ((0 : ℤ) < 1) ∧ (summarize 0 1 50 1 1 100 0 5 7).net_btc = 0 :=
  ⟨by decide, (negative_balance_clamped 0 1 50 1 1 100 0 5 7 (by decide)).1⟩

/-- Claim C9: all three summary divisions are guarded — `gain_pct`,
`sharpe_ratio` and `avg_buy` take their quotient form exactly when
their denominator is nonzero and are 0 when it is zero. -/
theorem division_guards (gain invested net_btc gp vol s252 : ℚ) :
    (invested ≠ 0 → gainPctCalc gain invested = gain / invested * 100) ∧
    (invested = 0 → gainPctCalc gain invested = 0) ∧
    (vol ≠ 0 → sharpeCalc gp vol s252 = gp / vol * s252) ∧
    (vol = 0 → sharpeCalc gp vol s252 = 0) ∧
    (net_btc ≠ 0 → avgBuyCalc invested net_btc = invested / net_btc) ∧
    (net_btc = 0 → avgBuyCalc invested net_btc = 0) := by
  refine ⟨fun h => ?_, fun h => ?_, fun h => ?_, fun h => ?_,
          fun h => ?_, fun h => ?_⟩ <;>
    simp [gainPctCalc, sharpeCalc, avgBuyCalc, h]

/-- Witness for `division_guards`: every guard instantiated. -/
theorem division_guards_witness :
    ((1 : ℚ) ≠ 0 ∧ gainPctCalc 50 1 = 50 / 1 * 100) ∧
    ((0 : ℚ) = 0 ∧ gainPctCalc 50 0 = 0) ∧
    ((2 : ℚ) ≠ 0 ∧ sharpeCalc 10 2 7 = 10 / 2 * 7) ∧
    ((0 : ℚ) = 0 ∧ sharpeCalc 10 0 7 = 0) ∧
    ((4 : ℚ) ≠ 0 ∧ avgBuyCalc 8 4 = 8 / 4) ∧
    ((0 : ℚ) = 0 ∧ avgBuyCalc 8 0 = 0) :=
  ⟨⟨by norm_num, (division_guards 50 1 4 10 2 7).1 (by norm_num)⟩,
   ⟨rfl, (division_guards 50 0 4 10 2 7).2.1 rfl⟩,
   ⟨by norm_num, (division_guards 50 1 4 10 2 7).2.2.1 (by norm_num)⟩,
   ⟨rfl, (division_guards 50 1 4 10 0 7).2.2.2.1 rfl⟩,
   ⟨by norm_num, (division_guards 50 8 4 10 2 7).2.2.2.2.1 (by norm_num)⟩,
   ⟨rfl, (division_guards 50 8 0 10 2 7).2.2.2.2.2 rfl⟩⟩

/-- Claim C10: there is an input — a retrievable transaction with zero
computed inflow and zero computed outflow for the tracked address —
for which the ledger is empty yet `first_tx_date` is set: null
`first_tx_date` does not coincide with an empty ledger. -/
theorem first_date_without_entries :
    ∃ (address : String) (hp : ℤ → ℚ) (now : ℤ) (d : TxDetail)
      (tid : String),
      btcIn address d = 0 ∧ btcOut address d = 0 ∧
      (getWalletStats address hp now [⟨tid, some d⟩]).data = [] ∧
      (getWalletStats address hp now [⟨tid, some d⟩]).first_tx_date
        = some 86400 := by
  refine ⟨"addr", fun _ => 10, 0,
    ⟨some 86400, true, [], [⟨1000, none⟩]⟩, "z1", ?_, ?_, ?_, ?_⟩ <;>
    norm_num [getWalletStats, stepTx, txRows, btcIn, btcOut, counterpartyOf,
      Int.fdiv, List.filter, decide_none_eq_some, decide_some_eq_some]

/-- Claim C7 (counterexample): on the all-zero two-point market-value
series — nonempty and monotonically non-decreasing — every drawdown
term is `0/0`, so the computed max drawdown is NaN: it is neither 0 nor
`≤ 0`. -/
theorem maxDrawdown_claim_cex :
    maxDrawdown [(0 : ℚ), 0] = FVal.nan ∧
    FVal.nan ≠ FVal.fin 0 ∧
    fle (maxDrawdown [(0 : ℚ), 0]) (FVal.fin 0) = false ∧
    List.Chain' (· ≤ ·) [(0 : ℚ), 0] := by
  have h : maxDrawdown [(0 : ℚ), 0] = FVal.nan := by
    norm_num [maxDrawdown, runningMax, minSkipNa, fminPair, fdivQ,
      fscale100, FVal.isNan, fle]
  refine ⟨h, by simp, by rw [h]; rfl, ?_⟩
  norm_num [List.chain'_cons, List.chain'_singleton]

/-- Claim C7 (amended): for a market-value series containing a nonzero
value, the computed max drawdown is `≤ 0` (possibly −∞), and it equals
0 when the series is monotonically non-decreasing; it equals 0 when the
series is empty.  (A nonempty all-zero series instead yields NaN.) -/
theorem maxDrawdown_spec (values : List ℚ) (h : ∃ v ∈ values, v ≠ 0) :
    fle (maxDrawdown values) (FVal.fin 0) = true ∧
    (List.Chain' (· ≤ ·) values → maxDrawdown values = FVal.fin 0) ∧
    maxDrawdown ([] : List ℚ) = FVal.fin 0 :=
  ⟨maxDrawdown_le_zero_of_exists values h,
   maxDrawdown_chain values h, rfl⟩

/-- Witness for `maxDrawdown_spec` on the concrete series `[1, 2]`. -/
theorem maxDrawdown_spec_witness :
    (∃ v ∈ [(1 : ℚ), 2], v ≠ 0) ∧
    fle (maxDrawdown [(1 : ℚ), 2]) (FVal.fin 0) = true :=
  ⟨⟨1, by norm_num, by norm_num⟩,
   (maxDrawdown_spec [(1 : ℚ), 2] ⟨1, by norm_num, by norm_num⟩).1⟩

/-- Claim C8 (counterexample): for a single-point price series the
percent-change series is a lone NaN, the standard deviation has no
valid data points, and the volatility is NaN — not 0. -/
theorem volatility_claim_cex :
    volatility30 [(100 : ℚ)] = FVal.nan ∧ FVal.nan ≠ FVal.fin 0 :=
  ⟨rfl, by simp⟩

/-- Claim C8 (amended): the volatility is 0 when the 30-day price
series is empty, but NaN — not 0 — when the series has a single point
(the standard deviation of the empty set of day-over-day percent
changes is undefined). -/
theorem volatility_spec :
    volatility30 ([] : List ℚ) = FVal.fin 0 ∧
    (∀ p : ℚ, volatility30 [p] = FVal.nan) :=
  ⟨rfl, fun _ => rfl⟩

end Infibit
